import Mathlib

/-!
Verification development for the `ProjectPackageJson` service of the tsed-cli
repository (`packages/cli-core/src/services/ProjectPackageJson.ts`).

The TypeScript source is shallowly embedded: JavaScript objects used as
string-keyed maps become association lists (`List (String × String)`) in
insertion order, the `semver.valid` check of the `semver` library becomes an
executable recogniser of the strict semver grammar, and the class
`ProjectPackageJson` becomes a record with explicit state-passing mutators.
External effects (the file system write, the `yarn --version` probe, the task
runner) are represented by explicit parameters and task-descriptor data.
-/

namespace TsedCli

/-! ## Character classes and low-level string helpers -/

/-- Decimal digit, as in the `\d` class of the semver regular expressions. -/
def isDigitChar (c : Char) : Bool := '0' ≤ c && c ≤ '9'

/-- ASCII letter, as in the `[a-zA-Z]` class of the semver regular expressions. -/
def isAlphaChar (c : Char) : Bool := ('a' ≤ c && c ≤ 'z') || ('A' ≤ c && c ≤ 'Z')

/-- Character allowed in a semver prerelease/build identifier: `[0-9A-Za-z-]`. -/
def isSemverIdentChar (c : Char) : Bool := isDigitChar c || isAlphaChar c || c = '-'

/-- Character allowed inside a template token: the class `[\w.]` of the
substitution regular expression in `addDependencies`/`addDevDependencies`. -/
def isTemplateTokenChar (c : Char) : Bool :=
  isDigitChar c || isAlphaChar c || c = '_' || c = '.'

/-- Split a character list at every occurrence of `sep`, like
`String.prototype.split` with a single-character separator. -/
def splitOnChar (sep : Char) : List Char → List (List Char)
  | [] => [[]]
  | c :: cs =>
    match splitOnChar sep cs with
    | [] => [[]]
    | g :: gs => if c = sep then [] :: g :: gs else (c :: g) :: gs

/-- Whether `pre` is a prefix of `s`, comparing character lists.  Models
`String.prototype.startsWith`. -/
def strStartsWith (s pre : String) : Bool := pre.data.isPrefixOf s.data

/-! ## The `semver.valid` recogniser

`mapPackagesWithValidVersion` and `mapPackagesWithInvalidVersion` classify
version strings with `semver.valid` (semver 7.x, strict mode).  `valid`
returns non-null exactly when the string has length at most 256, matches the
anchored strict `FULL` regular expression
`v? MAINVERSION PRERELEASE? BUILD?`, and its three main numbers do not exceed
`Number.MAX_SAFE_INTEGER`.  The pieces of that grammar are transcribed below.
-/

/-- Numeric value of a digit string (used only for the MAX_SAFE_INTEGER bound). -/
def digitsValue (cs : List Char) : Nat := cs.foldl (fun n c => n * 10 + (c.toNat - 48)) 0

/-- JavaScript `Number.MAX_SAFE_INTEGER`. -/
def maxSafeInteger : Nat := 9007199254740991

/-- Semver NUMERICIDENTIFIER: `0|[1-9]\d*` (no leading zeros). -/
def isNumericIdent : List Char → Bool
  | [] => false
  | [c] => isDigitChar c
  | c :: cs => isDigitChar c && c ≠ '0' && cs.all isDigitChar

/-- A main-version number: a numeric identifier within MAX_SAFE_INTEGER
(the SemVer constructor throws above that bound and `parse` returns null). -/
def isMainVersionNum (cs : List Char) : Bool :=
  isNumericIdent cs && digitsValue cs ≤ maxSafeInteger

/-- Semver PRERELEASEIDENTIFIER: a numeric identifier or
`\d*[a-zA-Z-][a-zA-Z0-9-]*`, i.e. a nonempty ident-char string with at least
one non-digit. -/
def isPreReleaseIdent (cs : List Char) : Bool :=
  isNumericIdent cs ||
    (!cs.isEmpty && cs.all isSemverIdentChar && cs.any (fun c => !isDigitChar c))

/-- Semver BUILDIDENTIFIER: `[0-9A-Za-z-]+`. -/
def isBuildIdent (cs : List Char) : Bool := !cs.isEmpty && cs.all isSemverIdentChar

/-- Semver MAINVERSION: exactly `major.minor.patch`. -/
def checkMainVersion (cs : List Char) : Bool :=
  match splitOnChar '.' cs with
  | [ma, mi, pa] => isMainVersionNum ma && isMainVersionNum mi && isMainVersionNum pa
  | _ => false

/-- Semver PRERELEASE body: dot-separated prerelease identifiers. -/
def checkPreRelease (cs : List Char) : Bool := (splitOnChar '.' cs).all isPreReleaseIdent

/-- Semver BUILD body: dot-separated build identifiers. -/
def checkBuild (cs : List Char) : Bool := (splitOnChar '.' cs).all isBuildIdent

/-- MAINVERSION followed by an optional `-`-introduced PRERELEASE.  The main
version contains no `-`, so the first `-` starts the prerelease part. -/
def checkMainAndPre (cs : List Char) : Bool :=
  checkMainVersion (cs.takeWhile (fun c => c ≠ '-')) &&
    (match cs.dropWhile (fun c => c ≠ '-') with
     | [] => true
     | _ :: pre => checkPreRelease pre)

/-- The strict `FULL` semver test on a character list: optional `v` prefix,
main version, optional prerelease, optional `+`-introduced build (no part of
the grammar before the build may contain `+`). -/
def semverValidChars (cs : List Char) : Bool :=
  cs.length ≤ 256 &&
    (let body := match cs with
      | 'v' :: rest => rest
      | other => other
     match splitOnChar '+' body with
     | [mp] => checkMainAndPre mp
     | [mp, b] => checkMainAndPre mp && checkBuild b
     | _ => false)

/-- Model of `semver.valid(version)` viewed as a Boolean: true exactly when
the library returns a non-null parse. -/
def semverValid (version : String) : Bool := semverValidChars version.data

/-! ## Object-as-map model

JavaScript objects used as string-keyed maps are modelled as association
lists in property insertion order.  `setKey` models `obj[k] = v` (an existing
key keeps its position, a new key is appended); `objFromEntries` models the
`reduce` idiom building an object from entries by repeated spread-and-assign.
-/

/-- Entries of a dependencies/scripts object: package name paired with value. -/
abbrev Entry := String × String

/-- Keys of an object, in property order. -/
def keysOf (l : List Entry) : List String := l.map Prod.fst

/-- Whether the object has the property `k`. -/
def hasKey (l : List Entry) (k : String) : Bool := l.any (fun p => p.1 == k)

/-- Property read: `obj[k]`, `undefined` represented as `none`. -/
def lookupKey (k : String) : List Entry → Option String
  | [] => none
  | p :: ps => if p.1 = k then some p.2 else lookupKey k ps

/-- Property write `obj[k] = v`: overwrite in place when the key is present, else append. -/
def setKey (l : List Entry) (k v : String) : List Entry :=
  if hasKey l k then l.map (fun p => if p.1 = k then (k, v) else p) else l ++ [(k, v)]

/-- Build an object from an entry list by the source's
`reduce((obj, [key, value]) => ({...obj, [key]: value}), {})` idiom. -/
def objFromEntries (l : List Entry) : List Entry :=
  l.foldl (fun acc p => setKey acc p.1 p.2) []

/-- Insert an entry into a key-sorted list, after all keys not greater than
its own — the placement produced by the comparator `k1 < k2 ? -1 : 1`. -/
def insertEntry (p : Entry) : List Entry → List Entry
  | [] => [p]
  | q :: qs => if p.1 < q.1 then p :: q :: qs else q :: insertEntry p qs

/-- Sort entries by key (insertion sort). -/
def sortEntries : List Entry → List Entry
  | [] => []
  | p :: ps => insertEntry p (sortEntries ps)

/-- The source's `sortKeys`: sort the entries with the comparator
`k1[0] < k2[0] ? -1 : 1`, then rebuild an object from them. -/
def sortKeys (obj : List Entry) : List Entry := objFromEntries (sortEntries obj)

/-- The source's `mapPackagesWithValidVersion`: keep, in an object rebuilt by
`reduce`, exactly the entries whose version passes `semver.valid`. -/
def mapPackagesWithValidVersion (deps : List Entry) : List Entry :=
  deps.foldl (fun acc p => if semverValid p.2 then setKey acc p.1 p.2 else acc) []

/-- The local `toString` of `mapPackagesWithInvalidVersion`: a `[name, version]`
entry becomes `name` when the version is literally `"latest"`, else
`name@version` (`info.join("@")`). -/
def depToString (info : Entry) : String :=
  if info.2 = "latest" then info.1 else info.1 ++ "@" ++ info.2

/-- The source's `mapPackagesWithInvalidVersion`: install-target strings for
the entries whose version fails `semver.valid`. -/
def mapPackagesWithInvalidVersion (deps : List Entry) : List String :=
  (deps.filter (fun p => !semverValid p.2)).map depToString

/-! ## Template substitution

`addDependencies`/`addDevDependencies` substitute template tokens in version
strings.  A token is an occurrence of two opening braces, one or more
characters of the class `[\w.]`, and two closing braces; each occurrence is
replaced by the result of `getValue(token, scope)` (the dotted-path lookup of
the external `@tsed/core` library), coerced to a string the way
`String.prototype.replace` coerces a replacer result — in particular an
`undefined` lookup is coerced to the literal string `"undefined"`.
JavaScript scope values are modelled as nested string/object data; property
access on a string value is modelled as `undefined` (no call site indexes
into a string).  `$`-escape processing of string replacements is not
modelled; no call site uses `$` in a replacement.
-/

/-- A JavaScript value usable as a substitution scope: a string leaf or an
object with ordered string-keyed fields. -/
inductive Scope where
  | str (value : String)
  | obj (fields : List (String × Scope))

/-- Field lookup in a scope object. -/
def lookupScopeField (k : String) : List (String × Scope) → Option Scope
  | [] => none
  | p :: ps => if p.1 = k then some p.2 else lookupScopeField k ps

/-- Property access `scope[k]` on a possibly-`undefined` value. -/
def propAccess : Option Scope → String → Option Scope
  | some (.obj fields), k => lookupScopeField k fields
  | _, _ => none

/-- The key-walking loop of `getValue`: consume keys left to right, stopping
early at a falsy (empty) key as the library's `while (key = keys.shift())`
does. -/
def getValueKeys : List String → Option Scope → Option Scope
  | [], s => s
  | k :: ks, s => if k = "" then s else getValueKeys ks (propAccess s k)

/-- Modelled from the behaviour of the external `@tsed/core` `getValue`
helper (not part of this repository): dotted-path lookup of `key` in
`scope`, `undefined` when the path is absent. -/
def getValue (key : String) (scope : Scope) : Option Scope :=
  if key = "" then some scope
  else getValueKeys ((splitOnChar '.' key.data).map (fun g => String.mk g)) (some scope)

/-- String coercion applied by `String.prototype.replace` to a replacer
result: strings pass through, objects print as `[object Object]`, and
`undefined` prints as `undefined`. -/
def coerceValue : Option Scope → String
  | some (.str v) => v
  | some (.obj _) => "[object Object]"
  | none => "undefined"

/-- One left-to-right pass of the global replace with the token pattern.  At
each position a token match is attempted (two opening braces, a maximal
nonempty run of token characters, two closing braces); on success the match
is replaced and scanning resumes after it, otherwise scanning advances one
character.  The fuel argument is an upper bound on the number of steps;
`templateReplace` supplies the input length, which suffices because every
step consumes at least one character. -/
def templateGo (look : String → String) : Nat → List Char → List Char
  | 0, cs => cs
  | _ + 1, [] => []
  | fuel + 1, '{' :: '{' :: rest =>
    let tok := rest.takeWhile isTemplateTokenChar
    if tok.isEmpty then '{' :: templateGo look fuel ('{' :: rest)
    else
      match rest.drop tok.length with
      | '}' :: '}' :: tail => (look (String.mk tok)).data ++ templateGo look fuel tail
      | _ => '{' :: templateGo look fuel ('{' :: rest)
  | fuel + 1, c :: rest => c :: templateGo look fuel rest

/-- Model of `version.replace(tokenPattern, replacer)` with global flag. -/
def templateReplace (version : String) (look : String → String) : String :=
  String.mk (templateGo look version.data.length version.data)

/-- Replace the first occurrence of `pat` (as `String.prototype.replace` with
a string pattern does); the whole string is returned unchanged when the
pattern does not occur. -/
def replaceFirstList (pat repl : List Char) : List Char → List Char
  | [] => if pat.isEmpty then repl else []
  | c :: cs =>
    if pat.isPrefixOf (c :: cs) then repl ++ (c :: cs).drop pat.length
    else c :: replaceFirstList pat repl cs

/-- String-pattern, first-occurrence replace. -/
def replaceFirst (s pat repl : String) : String :=
  String.mk (replaceFirstList pat.data repl.data s.data)

/-- The replacer closure `(match, key) => getValue(key, scope)` composed with
the string coercion `replace` applies to its result. -/
def templateLook (scope : Scope) (key : String) : String :=
  coerceValue (getValue key scope)

/-! ## The ProjectPackageJson state

The class state: the `raw` manifest (known fields plus an open bag of extra
top-level fields, the latter modelled with string values since no claim reads
a structured extra value back) and the two dirty flags.  Mutators return the
updated state.  Versions are modelled as strings; the optional-version
overloads are exercised by the claims only with present string arguments.
-/

structure ProjectPackageJson where
  name : String
  version : String
  description : String
  scripts : List Entry
  dependencies : List Entry
  devDependencies : List Entry
  extra : List Entry
  rewrite : Bool
  reinstall : Bool
deriving DecidableEq

/-- The initial `raw` value of a fresh instance, flags at their field
initialisers. -/
def emptyProjectPackageJson : ProjectPackageJson :=
  { name := ""
    version := "1.0.0"
    description := ""
    scripts := []
    dependencies := []
    devDependencies := []
    extra := []
    rewrite := false
    reinstall := false }

/-- The `name` setter: assigns the field and flips `rewrite`. -/
def setName (m : ProjectPackageJson) (name : String) : ProjectPackageJson :=
  { m with name := name, rewrite := true }

/-- Source `addDevDependency`: store the entry, flip both dirty flags. -/
def addDevDependency (m : ProjectPackageJson) (pkg version : String) : ProjectPackageJson :=
  { m with devDependencies := setKey m.devDependencies pkg version
           reinstall := true
           rewrite := true }

/-- Source `addDependency`: store the entry, flip both dirty flags. -/
def addDependency (m : ProjectPackageJson) (pkg version : String) : ProjectPackageJson :=
  { m with dependencies := setKey m.dependencies pkg version
           reinstall := true
           rewrite := true }

/-- Source `addDevDependencies`: for each module, substitute template tokens
in its version (a missing version is first defaulted to the empty string by
`version || ""`) and delegate to `addDevDependency`. -/
def addDevDependencies (m : ProjectPackageJson)
    (modules : List (String × Option String)) (scope : Scope) : ProjectPackageJson :=
  modules.foldl
    (fun acc p =>
      addDevDependency acc p.1 (templateReplace (p.2.getD "") (templateLook scope)))
    m

/-- Source `addDependencies`: like `addDevDependencies`, but first the
literal token `(two braces)tsedVersion(two braces)` is replaced — as a plain
string pattern, first occurrence — by the coercion of `ctx.tsedVersion`
(direct property access), before the generic token substitution runs. -/
def addDependencies (m : ProjectPackageJson)
    (modules : List (String × Option String)) (ctx : Scope) : ProjectPackageJson :=
  modules.foldl
    (fun acc p =>
      addDependency acc p.1
        (templateReplace
          (replaceFirst (p.2.getD "") "\x7b\x7btsedVersion\x7d\x7d"
            (coerceValue (propAccess (some ctx) "tsedVersion")))
          (templateLook ctx)))
    m

/-- Source `addScript`: store the script, flip `rewrite` only. -/
def addScript (m : ProjectPackageJson) (task cmd : String) : ProjectPackageJson :=
  { m with scripts := setKey m.scripts task cmd, rewrite := true }

/-- Source `add`: generic top-level field write, flips `rewrite`. -/
def add (m : ProjectPackageJson) (key value : String) : ProjectPackageJson :=
  { m with extra := setKey m.extra key value, rewrite := true }

/-- Source `set`: generic top-level field write; flips `rewrite`, and flips
`reinstall` exactly when the key is one of `dependencies`, `devDependencies`,
`peerDependencies`. -/
def set (m : ProjectPackageJson) (key value : String) : ProjectPackageJson :=
  { m with extra := setKey m.extra key value
           rewrite := true
           reinstall :=
             if key = "dependencies" || key = "devDependencies" || key = "peerDependencies"
             then true else m.reinstall }

/-! ## write -/

/-- The JSON object handed to `JSON.stringify` by `write`: the raw manifest
with the dependency maps replaced by their valid-version restrictions.
`JSON.stringify(json, null, 2)` is a deterministic function of this value, so
two equal `SerializedPackageJson` values serialise to byte-identical text. -/
structure SerializedPackageJson where
  name : String
  version : String
  description : String
  scripts : List Entry
  dependencies : List Entry
  devDependencies : List Entry
  extra : List Entry
deriving DecidableEq

/-- Outcome of the underlying `fs.writeFileSync` call. -/
inductive FsResult where
  | ok
  | err
deriving DecidableEq

/-- The in-memory state after the body of `write` has run: both dependency
maps re-assigned through `sortKeys`, and `rewrite` assigned `false` — all of
this happens before the file-system call. -/
def writeState (m : ProjectPackageJson) : ProjectPackageJson :=
  { m with devDependencies := sortKeys m.devDependencies
           dependencies := sortKeys m.dependencies
           rewrite := false }

/-- The serialized object produced by `write`: spread of the (already
sorted) raw manifest with the dependency maps filtered to valid versions. -/
def writeOutput (m : ProjectPackageJson) : SerializedPackageJson :=
  { name := (writeState m).name
    version := (writeState m).version
    description := (writeState m).description
    scripts := (writeState m).scripts
    dependencies := mapPackagesWithValidVersion (writeState m).dependencies
    devDependencies := mapPackagesWithValidVersion (writeState m).devDependencies
    extra := (writeState m).extra }

/-- Source `write`, with the file-system outcome made explicit: the state
mutations (sorting, clearing `rewrite`) precede the `writeFileSync` call, so
they stand even when that call throws; the serialized output is produced only
on success. -/
def write (m : ProjectPackageJson) (fs : FsResult) :
    ProjectPackageJson × Except Unit SerializedPackageJson :=
  (writeState m, match fs with
    | .ok => .ok (writeOutput m)
    | .err => .error ())

/-! ## install and the package-manager task lists -/

/-- What a task descriptor does when run; commands carry their argv. -/
inductive TaskAction where
  | writePackageJson
  | runPackageManager (cmd : String) (args : List String)
  | clean
deriving DecidableEq

/-- A task descriptor as built by `install` / `installWithYarn` /
`installWithNpm`.  `enabled` and `skipOnStart` are the values of the
`enabled`/`skip` closures over the state the list was built from;
`yarnErrorTranslation` records whether the task's observable pipes its
failures through the yarn lockfile-error translation. -/
structure InstallTask where
  title : String
  enabled : Bool
  skipOnStart : Bool
  yarnErrorTranslation : Bool
  action : TaskAction
deriving DecidableEq

/-- The `[...].filter(Boolean)` argv idiom: `none` stands for a false operand
of `verbose && "--verbose"`, and empty strings are falsy too. -/
def filterTruthy (args : List (Option String)) : List String :=
  (args.filterMap id).filter (fun s => !(s == ""))

/-- Source `installWithYarn`: the three yarn task descriptors over the
current dependency partitions. -/
def installWithYarn (m : ProjectPackageJson) (verbose : Bool) : List InstallTask :=
  let devDeps := mapPackagesWithInvalidVersion m.devDependencies
  let deps := mapPackagesWithInvalidVersion m.dependencies
  [ { title := "Installing dependencies using Yarn"
      enabled := true
      skipOnStart := !m.reinstall
      yarnErrorTranslation := true
      action := .runPackageManager "yarn"
        (filterTruthy [some "install", some "--production=false",
          if verbose then some "--verbose" else none]) }
  , { title := "Add dependencies using Yarn"
      enabled := true
      skipOnStart := deps.isEmpty
      yarnErrorTranslation := true
      action := .runPackageManager "yarn"
        (filterTruthy ([some "add", if verbose then some "--verbose" else none]
          ++ deps.map some)) }
  , { title := "Add devDependencies using Yarn"
      enabled := true
      skipOnStart := devDeps.isEmpty
      yarnErrorTranslation := true
      action := .runPackageManager "yarn"
        (filterTruthy ([some "add", some "-D", if verbose then some "--verbose" else none]
          ++ devDeps.map some)) } ]

/-- Source `installWithNpm`: the three npm task descriptors; no error
translation is attached. -/
def installWithNpm (m : ProjectPackageJson) (verbose : Bool) : List InstallTask :=
  let devDeps := mapPackagesWithInvalidVersion m.devDependencies
  let deps := mapPackagesWithInvalidVersion m.dependencies
  [ { title := "Installing dependencies using npm"
      enabled := true
      skipOnStart := !m.reinstall
      yarnErrorTranslation := false
      action := .runPackageManager "npm"
        (filterTruthy [some "install", some "--no-production",
          if verbose then some "--verbose" else none]) }
  , { title := "Add dependencies using npm"
      enabled := true
      skipOnStart := deps.isEmpty
      yarnErrorTranslation := false
      action := .runPackageManager "npm"
        (filterTruthy ([some "install", some "--save",
          if verbose then some "--verbose" else none] ++ deps.map some)) }
  , { title := "Add devDependencies using npm"
      enabled := true
      skipOnStart := devDeps.isEmpty
      yarnErrorTranslation := false
      action := .runPackageManager "npm"
        (filterTruthy ([some "install", some "--save-dev",
          if verbose then some "--verbose" else none] ++ devDeps.map some)) } ]

/-- Source `hasYarn`: run the probe `yarn --version`; true on success, false
when the probe throws. -/
def hasYarn (probe : Except Unit Unit) : Bool :=
  match probe with
  | .ok _ => true
  | .error _ => false

/-- The recognised `install` options: the requested backend (absent or empty
means unset, JavaScript-falsy) and the verbose flag. -/
structure InstallOptions where
  packageManager : Option String
  verbose : Bool
deriving DecidableEq

/-- The backend-selection lines of `install`: default the request to
`"yarn"`, then downgrade `"yarn"` to `"npm"` when the probe fails. -/
def resolvePackageManager (options : InstallOptions) (yarnAvailable : Bool) : String :=
  let requested :=
    match options.packageManager with
    | none => "yarn"
    | some s => if s = "" then "yarn" else s
  if requested = "yarn" && !yarnAvailable then "npm" else requested

/-- The leading task of `install`: write package.json, enabled by the
`rewrite` flag. -/
def writePackageJsonTask (m : ProjectPackageJson) : InstallTask :=
  { title := "Write package.json"
    enabled := m.rewrite
    skipOnStart := false
    yarnErrorTranslation := false
    action := .writePackageJson }

/-- The trailing task of `install`: clear both flags and re-read the
manifest. -/
def cleanTask : InstallTask :=
  { title := "Clean"
    enabled := true
    skipOnStart := false
    yarnErrorTranslation := false
    action := .clean }

/-- Source `install`: pick the backend, build its task list, and bracket it
with the write task and the clean task (run non-concurrent). -/
def install (m : ProjectPackageJson) (options : InstallOptions)
    (yarnProbe : Except Unit Unit) : List InstallTask :=
  let pm := resolvePackageManager options (hasYarn yarnProbe)
  let tasks := if pm = "yarn" then installWithYarn m options.verbose
               else installWithNpm m options.verbose
  writePackageJsonTask m :: tasks ++ [cleanTask]

/-! ## Failure surfacing -/

/-- A failed subprocess invocation as seen by `catchError`: its `stderr` and
its carried message. -/
structure ExecError where
  stderr : String
  message : String
deriving DecidableEq

/-- What the pipeline surfaces for a failed task: a freshly constructed
`Error` with a translated message, or the original error rethrown. -/
inductive SurfacedFailure where
  | translated (message : String)
  | raw (error : ExecError)
deriving DecidableEq

/-- The stderr signature recognised by the yarn error pipe. -/
def lockfileSignature : String := "error Your lockfile needs to be updated"

/-- The clarified message the yarn error pipe substitutes. -/
def lockfileMessage : String :=
  "yarn.lock file is outdated. Run yarn, commit the updated lockfile and try again."

/-- The `errorPipe` of `installWithYarn`: translate a lockfile-staleness
failure, rethrow anything else unchanged. -/
def yarnInstallErrorPipe (error : ExecError) : SurfacedFailure :=
  if strStartsWith error.stderr lockfileSignature then .translated lockfileMessage
  else .raw error

/-- The failure a given task surfaces for a subprocess error: through the
yarn pipe when one is attached, untouched otherwise. -/
def surfacedFailure (t : InstallTask) (error : ExecError) : SurfacedFailure :=
  if t.yarnErrorTranslation then yarnInstallErrorPipe error else .raw error

/-! ## Spec-side predicate for the persistence claim -/

/-- Modelled from the spec: a version specifier that is "a syntactically
valid semantic version or range".  The spec's range grammar is node-semver's;
only a representative fragment is needed here, so ranges are modelled as a
caret or tilde operator applied to a valid version, alongside plain valid
versions. -/
def specValidVersionOrRange (s : String) : Bool :=
  semverValid s ||
    (match s.data with
     | '^' :: rest => semverValidChars rest
     | '~' :: rest => semverValidChars rest
     | _ => false)

/-! ## Helper lemmas about the object-map model

`NodupKeys` is the JavaScript-object invariant every reachable manifest map
satisfies: property keys are unique. -/

/-- Unique keys, the standing invariant of an object used as a map. -/
abbrev NodupKeys (l : List Entry) : Prop := (l.map Prod.fst).Nodup

theorem nodupKeys_cons_head {p : Entry} {ps : List Entry}
    (h : NodupKeys (p :: ps)) : p.1 ∉ ps.map Prod.fst := by
  have h' : (p.1 :: ps.map Prod.fst).Nodup := h
  exact (List.nodup_cons.mp h').1

theorem nodupKeys_cons_tail {p : Entry} {ps : List Entry}
    (h : NodupKeys (p :: ps)) : NodupKeys ps := by
  have h' : (p.1 :: ps.map Prod.fst).Nodup := h
  exact (List.nodup_cons.mp h').2

theorem nodupKeys_iff_pairwise {l : List Entry} :
    NodupKeys l ↔ l.Pairwise (fun a b => a.1 ≠ b.1) := by
  have h : NodupKeys l ↔ (l.map Prod.fst).Pairwise (fun a b => a ≠ b) := Iff.rfl
  rw [h, List.pairwise_map]

theorem hasKey_eq_false_of_not_mem {l : List Entry} {k : String}
    (h : k ∉ l.map Prod.fst) : hasKey l k = false := by
  simp only [hasKey, List.any_eq_false]
  intro p hp
  simp only [beq_iff_eq]
  intro hpk
  exact h (List.mem_map.mpr ⟨p, hp, hpk⟩)

theorem setKey_eq_append {l : List Entry} {k : String} (v : String)
    (h : k ∉ l.map Prod.fst) : setKey l k v = l ++ [(k, v)] := by
  simp [setKey, hasKey_eq_false_of_not_mem h]

theorem foldl_setKey_eq_append :
    ∀ (l acc : List Entry), NodupKeys l →
      (∀ k ∈ l.map Prod.fst, k ∉ acc.map Prod.fst) →
      l.foldl (fun acc p => setKey acc p.1 p.2) acc = acc ++ l := by
  intro l
  induction l with
  | nil => intro acc _ _; simp
  | cons p ps ih =>
    intro acc hnd hdisj
    have hp : p.1 ∉ acc.map Prod.fst := hdisj p.1 (by simp)
    have hstep : setKey acc p.1 p.2 = acc ++ [p] := by
      rw [setKey_eq_append p.2 hp]
    have hnd' : NodupKeys ps := nodupKeys_cons_tail hnd
    have hdisj' : ∀ k ∈ ps.map Prod.fst, k ∉ (acc ++ [p]).map Prod.fst := by
      intro k hk
      simp only [List.map_append, List.mem_append, List.map_cons, List.map_nil,
        List.mem_singleton]
      rintro (hka | hkp)
      · exact hdisj k (by simp [hk]) hka
      · exact nodupKeys_cons_head hnd (hkp ▸ hk)
    calc (p :: ps).foldl (fun acc p => setKey acc p.1 p.2) acc
        = ps.foldl (fun acc p => setKey acc p.1 p.2) (acc ++ [p]) := by
          simp [List.foldl_cons, hstep]
      _ = (acc ++ [p]) ++ ps := ih (acc ++ [p]) hnd' hdisj'
      _ = acc ++ p :: ps := by simp

theorem objFromEntries_eq_self {l : List Entry} (h : NodupKeys l) :
    objFromEntries l = l := by
  simpa using foldl_setKey_eq_append l [] h (by simp)

theorem insertEntry_perm (p : Entry) (l : List Entry) :
    (insertEntry p l).Perm (p :: l) := by
  induction l with
  | nil => simp [insertEntry]
  | cons q qs ih =>
    by_cases hlt : p.1 < q.1
    · simp [insertEntry, hlt]
    · simp only [insertEntry, if_neg hlt]
      exact (ih.cons q).trans (List.Perm.swap p q qs)

theorem sortEntries_perm (l : List Entry) : (sortEntries l).Perm l := by
  induction l with
  | nil => simp [sortEntries]
  | cons p ps ih =>
    exact (insertEntry_perm p (sortEntries ps)).trans (ih.cons p)

theorem pairwise_insertEntry {p : Entry} {l : List Entry}
    (h : l.Pairwise (fun a b => a.1 ≤ b.1)) :
    (insertEntry p l).Pairwise (fun a b => a.1 ≤ b.1) := by
  induction l with
  | nil => simp [insertEntry]
  | cons q qs ih =>
    rcases List.pairwise_cons.mp h with ⟨hq, hqs⟩
    by_cases hlt : p.1 < q.1
    · simp only [insertEntry, if_pos hlt]
      refine List.pairwise_cons.mpr ⟨?_, h⟩
      intro b hb
      rcases List.mem_cons.mp hb with rfl | hb
      · exact le_of_lt hlt
      · exact le_trans (le_of_lt hlt) (hq b hb)
    · simp only [insertEntry, if_neg hlt]
      refine List.pairwise_cons.mpr ⟨?_, ih hqs⟩
      intro b hb
      have hb' := (insertEntry_perm p qs).mem_iff.mp hb
      rcases List.mem_cons.mp hb' with rfl | hb'
      · exact le_of_not_lt hlt
      · exact hq b hb'

theorem sortEntries_pairwise (l : List Entry) :
    (sortEntries l).Pairwise (fun a b => a.1 ≤ b.1) := by
  induction l with
  | nil => simp [sortEntries]
  | cons p ps ih => exact pairwise_insertEntry ih

theorem sortEntries_eq_self {l : List Entry}
    (h : l.Pairwise (fun a b => a.1 < b.1)) : sortEntries l = l := by
  induction l with
  | nil => rfl
  | cons p ps ih =>
    rcases List.pairwise_cons.mp h with ⟨hp, hps⟩
    have hrec : sortEntries ps = ps := ih hps
    simp only [sortEntries, hrec]
    cases ps with
    | nil => rfl
    | cons q qs => simp [insertEntry, hp q (by simp)]

theorem pairwise_lt_of_le_nodup {l : List Entry}
    (hle : l.Pairwise (fun a b => a.1 ≤ b.1)) (hnd : NodupKeys l) :
    l.Pairwise (fun a b => a.1 < b.1) := by
  have hne : l.Pairwise (fun a b => a.1 ≠ b.1) := nodupKeys_iff_pairwise.mp hnd
  exact (hle.and hne).imp (fun h => lt_of_le_of_ne h.1 h.2)

theorem nodupKeys_of_perm {l l' : List Entry} (hp : l.Perm l') (h : NodupKeys l) :
    NodupKeys l' := (hp.map Prod.fst).nodup_iff.mp h

theorem sortKeys_eq_sortEntries {l : List Entry} (h : NodupKeys l) :
    sortKeys l = sortEntries l :=
  objFromEntries_eq_self (nodupKeys_of_perm (sortEntries_perm l).symm h)

theorem sortKeys_perm {l : List Entry} (h : NodupKeys l) : (sortKeys l).Perm l := by
  rw [sortKeys_eq_sortEntries h]; exact sortEntries_perm l

theorem nodupKeys_sortKeys {l : List Entry} (h : NodupKeys l) :
    NodupKeys (sortKeys l) := nodupKeys_of_perm (sortKeys_perm h).symm h

theorem sortKeys_idem {l : List Entry} (h : NodupKeys l) :
    sortKeys (sortKeys l) = sortKeys l := by
  have h1 : sortKeys l = sortEntries l := sortKeys_eq_sortEntries h
  have hnd : NodupKeys (sortEntries l) := h1 ▸ nodupKeys_sortKeys h
  have hsorted : (sortEntries l).Pairwise (fun a b => a.1 < b.1) :=
    pairwise_lt_of_le_nodup (sortEntries_pairwise l) hnd
  rw [h1, sortKeys_eq_sortEntries hnd, sortEntries_eq_self hsorted]

theorem foldl_validStep_eq_append :
    ∀ (l acc : List Entry), NodupKeys l →
      (∀ k ∈ l.map Prod.fst, k ∉ acc.map Prod.fst) →
      l.foldl (fun acc p => if semverValid p.2 then setKey acc p.1 p.2 else acc) acc
        = acc ++ l.filter (fun p => semverValid p.2) := by
  intro l
  induction l with
  | nil => intro acc _ _; simp
  | cons p ps ih =>
    intro acc hnd hdisj
    have hndtail : NodupKeys ps := nodupKeys_cons_tail hnd
    have hphd : p.1 ∉ ps.map Prod.fst := nodupKeys_cons_head hnd
    by_cases hv : semverValid p.2
    · have hp : p.1 ∉ acc.map Prod.fst := hdisj p.1 (by simp)
      have hstep : setKey acc p.1 p.2 = acc ++ [p] := by
        rw [setKey_eq_append p.2 hp]
      have hdisj' : ∀ k ∈ ps.map Prod.fst, k ∉ (acc ++ [p]).map Prod.fst := by
        intro k hk
        simp only [List.map_append, List.mem_append, List.map_cons, List.map_nil,
          List.mem_singleton]
        rintro (hka | hkp)
        · exact hdisj k (by simp [hk]) hka
        · exact hphd (hkp ▸ hk)
      calc (p :: ps).foldl (fun acc p => if semverValid p.2 then setKey acc p.1 p.2 else acc) acc
          = ps.foldl (fun acc p => if semverValid p.2 then setKey acc p.1 p.2 else acc)
              (acc ++ [p]) := by simp [List.foldl_cons, hv, hstep]
        _ = (acc ++ [p]) ++ ps.filter (fun p => semverValid p.2) :=
              ih (acc ++ [p]) hndtail hdisj'
        _ = acc ++ (p :: ps).filter (fun p => semverValid p.2) := by
              simp [List.filter_cons, hv]
    · have hdisj' : ∀ k ∈ ps.map Prod.fst, k ∉ acc.map Prod.fst := by
        intro k hk
        exact hdisj k (by simp [hk])
      calc (p :: ps).foldl (fun acc p => if semverValid p.2 then setKey acc p.1 p.2 else acc) acc
          = ps.foldl (fun acc p => if semverValid p.2 then setKey acc p.1 p.2 else acc) acc := by
            simp [List.foldl_cons, hv]
        _ = acc ++ ps.filter (fun p => semverValid p.2) := ih acc hndtail hdisj'
        _ = acc ++ (p :: ps).filter (fun p => semverValid p.2) := by
              simp [List.filter_cons, hv]

theorem mapValid_eq_filter {l : List Entry} (h : NodupKeys l) :
    mapPackagesWithValidVersion l = l.filter (fun p => semverValid p.2) := by
  simpa [mapPackagesWithValidVersion] using foldl_validStep_eq_append l [] h (by simp)

/-! ## Helper lemmas about lookupKey -/

theorem lookupKey_eq_none_iff {k : String} {l : List Entry} :
    lookupKey k l = none ↔ k ∉ l.map Prod.fst := by
  induction l with
  | nil => simp [lookupKey]
  | cons p ps ih =>
    by_cases hk : p.1 = k
    · simp [lookupKey, hk]
    · simp [lookupKey, hk, ih, Ne.symm hk]

theorem mem_of_lookupKey {k v : String} {l : List Entry}
    (h : lookupKey k l = some v) : (k, v) ∈ l := by
  induction l with
  | nil => simp [lookupKey] at h
  | cons p ps ih =>
    obtain ⟨p1, p2⟩ := p
    by_cases hk : p1 = k
    · simp only [lookupKey, if_pos hk] at h
      obtain rfl := hk
      obtain rfl := Option.some.inj h
      exact List.mem_cons_self _ _
    · simp only [lookupKey, if_neg hk] at h
      exact List.mem_cons.mpr (Or.inr (ih h))

theorem lookupKey_of_mem {k v : String} {l : List Entry}
    (hnd : NodupKeys l) (h : (k, v) ∈ l) : lookupKey k l = some v := by
  induction l with
  | nil => simp at h
  | cons p ps ih =>
    have hndtail : NodupKeys ps := nodupKeys_cons_tail hnd
    have hphd : p.1 ∉ ps.map Prod.fst := nodupKeys_cons_head hnd
    rcases List.mem_cons.mp h with rfl | hmem
    · simp [lookupKey]
    · have hk : p.1 ≠ k := by
        intro hk
        exact hphd (hk ▸ List.mem_map.mpr ⟨(k, v), hmem, rfl⟩)
      simp [lookupKey, hk, ih hndtail hmem]

theorem lookupKey_perm {k : String} {l l' : List Entry}
    (hnd : NodupKeys l) (hp : l.Perm l') : lookupKey k l = lookupKey k l' := by
  cases hv : lookupKey k l with
  | none =>
    have hk : k ∉ l.map Prod.fst := lookupKey_eq_none_iff.mp hv
    have hk' : k ∉ l'.map Prod.fst := fun hmem =>
      hk ((hp.map Prod.fst).mem_iff.mpr hmem)
    exact (lookupKey_eq_none_iff.mpr hk').symm
  | some v =>
    have hmem : (k, v) ∈ l' := hp.mem_iff.mp (mem_of_lookupKey hv)
    exact (lookupKey_of_mem (nodupKeys_of_perm hp hnd) hmem).symm

theorem lookupKey_filter {k : String} {l : List Entry}
    (hnd : NodupKeys l) (q : String → Bool) :
    lookupKey k (l.filter (fun p => q p.2)) = (lookupKey k l).filter q := by
  induction l with
  | nil => simp [lookupKey, Option.filter]
  | cons p ps ih =>
    have hndtail : NodupKeys ps := nodupKeys_cons_tail hnd
    have hphd : p.1 ∉ ps.map Prod.fst := nodupKeys_cons_head hnd
    by_cases hk : p.1 = k
    case pos =>
      by_cases hq : q p.2
      case pos => simp [List.filter_cons, hq, lookupKey, hk, Option.filter]
      case neg =>
        have hnone : lookupKey k (ps.filter (fun p => q p.2)) = none := by
          refine lookupKey_eq_none_iff.mpr ?_
          intro hmem
          rcases List.mem_map.mp hmem with ⟨r, hr, hrk⟩
          exact hphd (hk ▸ hrk ▸ List.mem_map.mpr ⟨r, List.mem_of_mem_filter hr, rfl⟩)
        simp [List.filter_cons, hq, lookupKey, hk, Option.filter, hnone]
    case neg =>
      by_cases hq : q p.2
      case pos => simp [List.filter_cons, hq, lookupKey, hk, ih hndtail]
      case neg => simp [List.filter_cons, hq, lookupKey, hk, ih hndtail]

/-! ## Helper lemmas about template substitution -/

theorem takeWhile_append_of_all {p : Char → Bool} {l : List Char} {c : Char} {r : List Char}
    (hl : ∀ x ∈ l, p x = true) (hc : p c = false) :
    (l ++ c :: r).takeWhile p = l := by
  induction l with
  | nil => simp [List.takeWhile_cons, hc]
  | cons a as ih =>
    have ha : p a = true := hl a (by simp)
    simp [List.takeWhile_cons, ha, ih (fun x hx => hl x (by simp [hx]))]

theorem templateGo_token_hit (look : String → String) (fuel : Nat)
    (tdata tail : List Char) (hne : tdata.isEmpty = false)
    (hall : ∀ c ∈ tdata, isTemplateTokenChar c = true) :
    templateGo look (fuel + 1) ('{' :: '{' :: (tdata ++ '}' :: '}' :: tail)) =
      (look (String.mk tdata)).data ++ templateGo look fuel tail := by
  have htok : (tdata ++ '}' :: '}' :: tail).takeWhile isTemplateTokenChar = tdata :=
    takeWhile_append_of_all hall (by decide)
  have hdrop : (tdata ++ '}' :: '}' :: tail).drop tdata.length = '}' :: '}' :: tail :=
    List.drop_left tdata _
  simp only [templateGo, htok, hne, hdrop, Bool.false_eq_true, if_false]

theorem templateReplace_single_token (t : String) (look : String → String)
    (h1 : t.data.isEmpty = false) (h2 : ∀ c ∈ t.data, isTemplateTokenChar c = true) :
    templateReplace ("\x7b\x7b" ++ t ++ "\x7d\x7d") look = look t := by
  have hdata : ("\x7b\x7b" ++ t ++ "\x7d\x7d").data
      = '{' :: '{' :: (t.data ++ '}' :: '}' :: []) := rfl
  unfold templateReplace
  rw [hdata]
  have hlen : ('{' :: '{' :: (t.data ++ '}' :: '}' :: ([] : List Char))).length
      = t.data.length + 3 + 1 := by simp
  rw [hlen, templateGo_token_hit look _ t.data [] h1 h2]
  have hnil : templateGo look (t.data.length + 3) [] = [] := rfl
  rw [hnil, List.append_nil]

/-! ## Claim theorems -/

/-- C1, counterexample: the claim says every entry whose specifier is a valid
semantic version **or range** is persisted by `write`; but `"^1.0.0"` is a
syntactically valid range and `write` omits the entry `pkg @ ^1.0.0` from the
persisted dependencies object (while it is present in memory), because
`semver.valid` accepts only exact versions. -/
theorem write_drops_valid_range_counterexample :
    specValidVersionOrRange "^1.0.0" = true
      ∧ lookupKey "pkg"
          (writeOutput { emptyProjectPackageJson with
            dependencies := [("pkg", "^1.0.0")] }).dependencies = none
      ∧ lookupKey "pkg"
          ({ emptyProjectPackageJson with
            dependencies := [("pkg", "^1.0.0")] }).dependencies = some "^1.0.0" :=
  ⟨by decide, by decide, by decide⟩

/-- C1 (amended): `write` persists, in each of the two dependency maps,
exactly those entries whose version specifier is a syntactically valid exact
semantic version in the sense of `semver.valid` — ranges (for example caret
ranges) and all other strings are silently omitted from the persisted
objects; persisted entries keep their version. -/
theorem write_persists_exactly_validSemver (m : ProjectPackageJson)
    (h1 : NodupKeys m.dependencies) (h2 : NodupKeys m.devDependencies) :
    (∀ k, lookupKey k (writeOutput m).dependencies
        = (lookupKey k m.dependencies).filter semverValid)
      ∧ (∀ k, lookupKey k (writeOutput m).devDependencies
        = (lookupKey k m.devDependencies).filter semverValid) := by
  constructor
  · intro k
    have e1 : (writeOutput m).dependencies
        = (sortKeys m.dependencies).filter (fun p => semverValid p.2) :=
      mapValid_eq_filter (nodupKeys_sortKeys h1)
    rw [e1, lookupKey_filter (nodupKeys_sortKeys h1) semverValid,
      lookupKey_perm (nodupKeys_sortKeys h1) (sortKeys_perm h1)]
  · intro k
    have e1 : (writeOutput m).devDependencies
        = (sortKeys m.devDependencies).filter (fun p => semverValid p.2) :=
      mapValid_eq_filter (nodupKeys_sortKeys h2)
    rw [e1, lookupKey_filter (nodupKeys_sortKeys h2) semverValid,
      lookupKey_perm (nodupKeys_sortKeys h2) (sortKeys_perm h2)]

/-- C1 witness: instantiation of the amended persistence theorem on a
two-entry manifest, showing the non-semver entry `pkg @ next` is dropped. -/
theorem write_persists_exactly_validSemver_witness :
    NodupKeys ([("a", "1.0.0"), ("pkg", "next")] : List Entry)
      ∧ lookupKey "pkg"
          (writeOutput { emptyProjectPackageJson with
            dependencies := [("a", "1.0.0"), ("pkg", "next")] }).dependencies
        = (lookupKey "pkg"
            ({ emptyProjectPackageJson with
              dependencies := [("a", "1.0.0"), ("pkg", "next")] }).dependencies).filter
            semverValid :=
  ⟨by decide,
    (write_persists_exactly_validSemver
      { emptyProjectPackageJson with dependencies := [("a", "1.0.0"), ("pkg", "next")] }
      (by decide) (by decide)).1 "pkg"⟩

/-- C2: starting from dependencies `a @ 1.0.0`, adding `b` with the template
version built of two braces around `x` under scope `x = 2.0.0` yields
dependencies `a @ 1.0.0, b @ 2.0.0` and sets both dirty flags. -/
theorem addDependencies_template_scenario :
    ((addDependencies { emptyProjectPackageJson with dependencies := [("a", "1.0.0")] }
        [("b", some "\x7b\x7bx\x7d\x7d")] (Scope.obj [("x", Scope.str "2.0.0")])).dependencies
      = [("a", "1.0.0"), ("b", "2.0.0")])
      ∧ (addDependencies { emptyProjectPackageJson with dependencies := [("a", "1.0.0")] }
          [("b", some "\x7b\x7bx\x7d\x7d")] (Scope.obj [("x", Scope.str "2.0.0")])).reinstall
        = true
      ∧ (addDependencies { emptyProjectPackageJson with dependencies := [("a", "1.0.0")] }
          [("b", some "\x7b\x7bx\x7d\x7d")] (Scope.obj [("x", Scope.str "2.0.0")])).rewrite
        = true :=
  ⟨by decide, by decide, by decide⟩

/-- C3, counterexample: the claim says an undefined dotted-path lookup
substitutes the empty string; but adding `b` with the single-token template
over `x` under an empty scope stores the version `"undefined"` (the JavaScript
string coercion of `undefined`), not `""`. -/
theorem template_undefined_lookup_counterexample :
    lookupKey "b" (addDependencies emptyProjectPackageJson
        [("b", some "\x7b\x7bx\x7d\x7d")] (Scope.obj [])).dependencies = some "undefined"
      ∧ lookupKey "b" (addDependencies emptyProjectPackageJson
        [("b", some "\x7b\x7bx\x7d\x7d")] (Scope.obj [])).dependencies ≠ some "" :=
  ⟨by decide, by decide⟩

/-- C3 (amended): for every template token whose dotted-path lookup in the
substitution scope is undefined, the substitution performed when adding
dependencies replaces the token occurrence with the string `"undefined"`
(JavaScript's string coercion of `undefined`), not with the empty string. -/
theorem template_undefined_lookup_substitutes_undefined
    (m : ProjectPackageJson) (pkg t : String) (scope : Scope)
    (h1 : t.data.isEmpty = false)
    (h2 : ∀ c ∈ t.data, isTemplateTokenChar c = true)
    (h3 : getValue t scope = none) :
    (addDevDependencies m [(pkg, some ("\x7b\x7b" ++ t ++ "\x7d\x7d"))] scope).devDependencies
      = setKey m.devDependencies pkg "undefined" := by
  have hrepl : templateReplace ("\x7b\x7b" ++ t ++ "\x7d\x7d") (templateLook scope)
      = "undefined" := by
    rw [templateReplace_single_token t _ h1 h2]
    simp [templateLook, h3, coerceValue]
  simp [addDevDependencies, addDevDependency, hrepl]

/-- C3 witness: instantiation at token `x` and the empty scope. -/
theorem template_undefined_lookup_substitutes_undefined_witness :
    "x".data.isEmpty = false
      ∧ (addDevDependencies emptyProjectPackageJson
          [("pkg", some ("\x7b\x7b" ++ "x" ++ "\x7d\x7d"))] (Scope.obj [])).devDependencies
        = setKey emptyProjectPackageJson.devDependencies "pkg" "undefined" :=
  ⟨rfl,
    template_undefined_lookup_substitutes_undefined emptyProjectPackageJson "pkg" "x"
      (Scope.obj []) rfl (by decide) rfl⟩

/-- C4: the valid partition's key set together with the package names
underlying the invalid partition's install targets reconstructs the original
key set exactly (as a permutation), and the two name sets are disjoint;
moreover the install targets are precisely the `depToString` images of the
invalid entries, whose names are their first components. -/
theorem partition_reconstructs_keys (deps : List Entry) (h : NodupKeys deps) :
    mapPackagesWithInvalidVersion deps
        = (deps.filter (fun p => !semverValid p.2)).map depToString
      ∧ ((mapPackagesWithValidVersion deps).map Prod.fst
          ++ (deps.filter (fun p => !semverValid p.2)).map Prod.fst).Perm
          (deps.map Prod.fst)
      ∧ ∀ k, k ∈ (mapPackagesWithValidVersion deps).map Prod.fst →
          k ∉ (deps.filter (fun p => !semverValid p.2)).map Prod.fst := by
  refine ⟨rfl, ?_, ?_⟩
  · rw [mapValid_eq_filter h]
    have hperm := (List.filter_append_perm (fun p : Entry => semverValid p.2) deps).map Prod.fst
    simpa [List.map_append] using hperm
  · intro k hk1 hk2
    rw [mapValid_eq_filter h] at hk1
    rcases List.mem_map.mp hk1 with ⟨p, hp, hpk⟩
    rcases List.mem_map.mp hk2 with ⟨r, hr, hrk⟩
    have hpl : p ∈ deps := List.mem_of_mem_filter hp
    have hrl : r ∈ deps := List.mem_of_mem_filter hr
    have hpr : p = r := List.inj_on_of_nodup_map h hpl hrl (hpk.trans hrk.symm)
    have hpv : semverValid p.2 = true := (List.mem_filter.mp hp).2
    have hrv : (!semverValid r.2) = true := (List.mem_filter.mp hr).2
    rw [hpr] at hpv
    simp [hpv] at hrv

/-- C4 witness: instantiation on a map with one valid and one invalid entry. -/
theorem partition_reconstructs_keys_witness :
    NodupKeys ([("a", "1.0.0"), ("b", "next")] : List Entry)
      ∧ ((mapPackagesWithValidVersion [("a", "1.0.0"), ("b", "next")]).map Prod.fst
          ++ (([("a", "1.0.0"), ("b", "next")] : List Entry).filter
              (fun p => !semverValid p.2)).map Prod.fst).Perm
          (([("a", "1.0.0"), ("b", "next")] : List Entry).map Prod.fst) :=
  ⟨by decide, (partition_reconstructs_keys [("a", "1.0.0"), ("b", "next")] (by decide)).2.1⟩

/-- C5: with no intervening mutation, a second `write` produces the same
serialized object as the first, hence byte-identical `JSON.stringify`
output. -/
theorem write_twice_idempotent (m : ProjectPackageJson)
    (h1 : NodupKeys m.dependencies) (h2 : NodupKeys m.devDependencies) :
    (write (write m FsResult.ok).1 FsResult.ok).2 = (write m FsResult.ok).2 := by
  have hd : sortKeys (sortKeys m.dependencies) = sortKeys m.dependencies := sortKeys_idem h1
  have hv : sortKeys (sortKeys m.devDependencies) = sortKeys m.devDependencies :=
    sortKeys_idem h2
  simp [write, writeOutput, writeState, hd, hv]

/-- C5 witness: instantiation on a manifest with unsorted and partly invalid
dependency entries. -/
theorem write_twice_idempotent_witness :
    NodupKeys ([("b", "2.0.0"), ("a", "latest")] : List Entry)
      ∧ (write (write { emptyProjectPackageJson with
            dependencies := [("b", "2.0.0"), ("a", "latest")],
            devDependencies := [("c", "1.0.0")] } FsResult.ok).1 FsResult.ok).2
        = (write { emptyProjectPackageJson with
            dependencies := [("b", "2.0.0"), ("a", "latest")],
            devDependencies := [("c", "1.0.0")] } FsResult.ok).2 :=
  ⟨by decide,
    write_twice_idempotent
      { emptyProjectPackageJson with
        dependencies := [("b", "2.0.0"), ("a", "latest")],
        devDependencies := [("c", "1.0.0")] } (by decide) (by decide)⟩

/-- C6, counterexample: the claim says the `rewrite` flag remains true when
the file write performed by `write` fails; but `write` assigns
`rewrite = false` before invoking the file system, so after a failed write the
flag is false. -/
theorem rewrite_cleared_on_failed_write_counterexample :
    (addDependency emptyProjectPackageJson "a" "1.0.0").rewrite = true
      ∧ ((write (addDependency emptyProjectPackageJson "a" "1.0.0") FsResult.err).1).rewrite
        = false :=
  ⟨rfl, rfl⟩

/-- C6 (amended): the `rewrite` flag becomes true after every content-changing
mutation, and `write` clears it unconditionally before attempting the file
write — so it is false after `write` even when the file write fails (it is
not cleared only on success). -/
theorem rewrite_flag_set_and_cleared_unconditionally (m : ProjectPackageJson)
    (nm pkg ver task cmd key value : String) :
    (setName m nm).rewrite = true
      ∧ (addDependency m pkg ver).rewrite = true
      ∧ (addDevDependency m pkg ver).rewrite = true
      ∧ (addScript m task cmd).rewrite = true
      ∧ (add m key value).rewrite = true
      ∧ (set m key value).rewrite = true
      ∧ ∀ fs, ((write m fs).1).rewrite = false :=
  ⟨rfl, rfl, rfl, rfl, rfl, rfl, fun _ => rfl⟩

/-- C7: every yarn install task surfaces a failure whose stderr starts with
the lockfile-staleness signature as exactly the clarified lockfile message,
surfaces every other failure unchanged, and every npm install task surfaces
all failures unchanged. -/
theorem yarn_lockfile_error_translation (m : ProjectPackageJson) (v : Bool) (e : ExecError) :
    (strStartsWith e.stderr lockfileSignature = true →
        ∀ t ∈ installWithYarn m v,
          surfacedFailure t e = SurfacedFailure.translated lockfileMessage)
      ∧ (strStartsWith e.stderr lockfileSignature = false →
        ∀ t ∈ installWithYarn m v, surfacedFailure t e = SurfacedFailure.raw e)
      ∧ (∀ t ∈ installWithNpm m v, surfacedFailure t e = SurfacedFailure.raw e) := by
  refine ⟨?_, ?_, ?_⟩
  · intro hsig t ht
    simp only [installWithYarn, List.mem_cons, List.not_mem_nil, or_false] at ht
    rcases ht with rfl | rfl | rfl <;>
      simp [surfacedFailure, yarnInstallErrorPipe, hsig]
  · intro hsig t ht
    simp only [installWithYarn, List.mem_cons, List.not_mem_nil, or_false] at ht
    rcases ht with rfl | rfl | rfl <;>
      simp [surfacedFailure, yarnInstallErrorPipe, hsig]
  · intro t ht
    simp only [installWithNpm, List.mem_cons, List.not_mem_nil, or_false] at ht
    rcases ht with rfl | rfl | rfl <;> simp [surfacedFailure]

/-- C7 witness: the bulk-install yarn task built from the fresh manifest
translates a lockfile-staleness failure to the clarified message. -/
theorem yarn_lockfile_error_translation_witness :
    strStartsWith "error Your lockfile needs to be updated by y" lockfileSignature = true
      ∧ surfacedFailure
          { title := "Installing dependencies using Yarn", enabled := true,
            skipOnStart := true, yarnErrorTranslation := true,
            action := TaskAction.runPackageManager "yarn" ["install", "--production=false"] }
          { stderr := "error Your lockfile needs to be updated by y", message := "raw stderr" }
        = SurfacedFailure.translated lockfileMessage :=
  ⟨by decide,
    (yarn_lockfile_error_translation emptyProjectPackageJson false
        { stderr := "error Your lockfile needs to be updated by y",
          message := "raw stderr" }).1
      (by decide) _ (by decide)⟩

/-- C8: `install` with no requested package manager, or with yarn requested,
resolves to yarn when the probe succeeds; and when the probe throws, the task
list is built from the npm command set bracketed by the write and clean
tasks. -/
theorem install_defaults_yarn_and_falls_back_to_npm (m : ProjectPackageJson)
    (options : InstallOptions)
    (h : options.packageManager = none ∨ options.packageManager = some "yarn") :
    resolvePackageManager options (hasYarn (Except.ok ())) = "yarn"
      ∧ install m options (Except.error ())
        = writePackageJsonTask m :: (installWithNpm m options.verbose ++ [cleanTask]) := by
  have hres : resolvePackageManager options (hasYarn (Except.error ())) = "npm" := by
    rcases h with h | h <;> simp [resolvePackageManager, hasYarn, h]
  constructor
  · rcases h with h | h <;> simp [resolvePackageManager, hasYarn, h]
  · simp [install, hres]

/-- C8 witness: instantiation at an explicit yarn request with a failing
probe. -/
theorem install_defaults_yarn_and_falls_back_to_npm_witness :
    (({ packageManager := some "yarn", verbose := false } : InstallOptions).packageManager = none
        ∨ ({ packageManager := some "yarn", verbose := false } : InstallOptions).packageManager
          = some "yarn")
      ∧ install emptyProjectPackageJson
          { packageManager := some "yarn", verbose := false } (Except.error ())
        = writePackageJsonTask emptyProjectPackageJson
            :: (installWithNpm emptyProjectPackageJson false ++ [cleanTask]) :=
  ⟨Or.inr rfl,
    (install_defaults_yarn_and_falls_back_to_npm emptyProjectPackageJson
      { packageManager := some "yarn", verbose := false } (Or.inr rfl)).2⟩

/-- C9: every placeholder-versioned entry's install target is the bare name
when its version is exactly `latest` and `name@version` otherwise; in
particular, after `addDependency pkg latest` the npm add-dependencies task's
target list is exactly `[pkg]`, with no `@latest` suffix. -/
theorem invalid_version_install_targets (deps : List Entry) :
    mapPackagesWithInvalidVersion deps
        = (deps.filter (fun p => !semverValid p.2)).map
            (fun p => if p.2 = "latest" then p.1 else p.1 ++ "@" ++ p.2)
      ∧ mapPackagesWithInvalidVersion
          (addDependency emptyProjectPackageJson "pkg" "latest").dependencies = ["pkg"]
      ∧ installWithNpm (addDependency emptyProjectPackageJson "pkg" "latest") false
        = [ { title := "Installing dependencies using npm", enabled := true,
              skipOnStart := false, yarnErrorTranslation := false,
              action := TaskAction.runPackageManager "npm" ["install", "--no-production"] }
          , { title := "Add dependencies using npm", enabled := true,
              skipOnStart := false, yarnErrorTranslation := false,
              action := TaskAction.runPackageManager "npm" ["install", "--save", "pkg"] }
          , { title := "Add devDependencies using npm", enabled := true,
              skipOnStart := true, yarnErrorTranslation := false,
              action := TaskAction.runPackageManager "npm" ["install", "--save-dev"] } ] :=
  ⟨rfl, by decide, by decide⟩

/-- C10: `write` removes nothing from the in-memory manifest: the state it
leaves behind has dependency maps that are permutations (sorted by key) of
the originals with every key still bound to the same version — placeholder
versions included — and all other fields untouched; invalid entries are
omitted only from the serialized output, which is the valid-version filter of
the in-memory maps. -/
theorem write_preserves_in_memory_entries (m : ProjectPackageJson)
    (h1 : NodupKeys m.dependencies) (h2 : NodupKeys m.devDependencies) :
    (∀ fs, (write m fs).1 = writeState m)
      ∧ ((writeState m).dependencies).Perm m.dependencies
      ∧ ((writeState m).devDependencies).Perm m.devDependencies
      ∧ (∀ k, lookupKey k (writeState m).dependencies = lookupKey k m.dependencies)
      ∧ (∀ k, lookupKey k (writeState m).devDependencies = lookupKey k m.devDependencies)
      ∧ (writeState m).dependencies.Pairwise (fun a b => a.1 ≤ b.1)
      ∧ (writeState m).devDependencies.Pairwise (fun a b => a.1 ≤ b.1)
      ∧ (writeState m).name = m.name
      ∧ (writeState m).version = m.version
      ∧ (writeState m).description = m.description
      ∧ (writeState m).scripts = m.scripts
      ∧ (writeState m).extra = m.extra
      ∧ (writeOutput m).dependencies
          = (writeState m).dependencies.filter (fun p => semverValid p.2)
      ∧ (writeOutput m).devDependencies
          = (writeState m).devDependencies.filter (fun p => semverValid p.2) := by
  refine ⟨fun _ => rfl, ?_, ?_, ?_, ?_, ?_, ?_, rfl, rfl, rfl, rfl, rfl, ?_, ?_⟩
  · exact sortKeys_perm h1
  · exact sortKeys_perm h2
  · exact fun k => lookupKey_perm (nodupKeys_sortKeys h1) (sortKeys_perm h1)
  · exact fun k => lookupKey_perm (nodupKeys_sortKeys h2) (sortKeys_perm h2)
  · show (sortKeys m.dependencies).Pairwise (fun a b => a.1 ≤ b.1)
    rw [sortKeys_eq_sortEntries h1]
    exact sortEntries_pairwise m.dependencies
  · show (sortKeys m.devDependencies).Pairwise (fun a b => a.1 ≤ b.1)
    rw [sortKeys_eq_sortEntries h2]
    exact sortEntries_pairwise m.devDependencies
  · exact mapValid_eq_filter (nodupKeys_sortKeys h1)
  · exact mapValid_eq_filter (nodupKeys_sortKeys h2)

/-- C10 witness: instantiation on a manifest holding one valid and one
placeholder entry; the placeholder entry survives in memory. -/
theorem write_preserves_in_memory_entries_witness :
    NodupKeys ([("b", "1.0.0"), ("a", "next")] : List Entry)
      ∧ (∀ k, lookupKey k
            (writeState { emptyProjectPackageJson with
              dependencies := [("b", "1.0.0"), ("a", "next")] }).dependencies
          = lookupKey k ({ emptyProjectPackageJson with
              dependencies := [("b", "1.0.0"), ("a", "next")] }).dependencies) :=
  ⟨by decide,
    (write_preserves_in_memory_entries
      { emptyProjectPackageJson with dependencies := [("b", "1.0.0"), ("a", "next")] }
      (by decide) (by decide)).2.2.2.1⟩

end TsedCli
